import Mathlib

/-!
# Verification of the procspy process-socket correlation engine

Shallow embedding of `probe/endpoint/procspy/proc_linux.go`.

The procfs environment (stat results, directory listings, file contents)
is abstracted as a record of pure functions `Fs`; the scan's mutable state
(the socket result map, the shared connection-table buffer, and ghost
observation counters for descriptors examined, rate-limit pauses, and
connection-table reads) is threaded explicitly as a `ScanSt` value.
Machine integers (inodes, modes, PIDs, byte counts) are modelled as `Nat`
(an `Int` where the source uses a signed sentinel); Go errors are
`Option String` / `Except String`.
-/

deriving instance DecidableEq for Except

namespace Procspy

/-- `procRoot` variable from the source; the default procfs mount point. -/
def procRoot : String := "/proc"

/-- `syscall.S_IFMT` (0xF000): the file-type bits of a stat mode. -/
def S_IFMT : Nat := 61440

/-- `syscall.S_IFSOCK` (0xC000): the socket file type. -/
def S_IFSOCK : Nat := 49152

/-- A live process handle (`process.Process`): the fields this engine reads. -/
structure Process where
  PID : Nat
  Name : String
deriving DecidableEq, Repr

/-- The owner record stored in the result map (`Proc`). -/
structure Proc where
  PID : Nat
  Name : String
deriving DecidableEq, Repr

/-- The procfs / kernel environment the scan observes, as pure functions.
`stat path = some (ino, mode)` models a successful `fs.Stat`;
`readDirNames` models `fs.ReadDirNames`; `readFileLen path = .ok n` models a
successful `readFile` appending `n` bytes to the buffer; `kernelVersion`
models `getKernelVersion()` (`none` = detection failure), a version being
its numeric release segments. -/
structure Fs where
  kernelVersion : Option (List Nat)
  stat : String → Option (Nat × Nat)
  readDirNames : String → Option (List String)
  readFileLen : String → Except String Nat

/-- Scan-local state threaded through the walk.  `sockets` is the
inode → owner result map (association list, insertion order; a Go map
write is `mapInsert`).  `bufLen` is the length of the shared
`bytes.Buffer`.  The remaining fields are ghost observation counters of
the scan's externally visible events: `total` counts descriptor entries
examined (each `fdBlockCount++`), `pauses` counts blocking receives from
the rate-limit ticker inside a group walk, `reads` counts invocations of
`readProcessConnections`, and `groupReadStartLens` records the buffer
length at the start of each group's initial connection-table read. -/
structure ScanSt where
  sockets : List (Nat × Proc)
  bufLen : Nat
  total : Nat
  pauses : Nat
  reads : Nat
  groupReadStartLens : List Nat
deriving DecidableEq, Repr

/-- The all-zero state a scan starts from (fresh buffer, empty map). -/
def initSt : ScanSt :=
  { sockets := [], bufLen := 0, total := 0, pauses := 0, reads := 0
    groupReadStartLens := [] }

/-- `go-version` comparison (`Version.LessThan`) on numeric segments:
segment-wise numeric order, a missing segment comparing as zero. -/
def versionLessThan : List Nat → List Nat → Bool
  | [], bs => bs.any fun b => decide (0 < b)
  | a :: as, [] => if 0 < a then false else versionLessThan as []
  | a :: as, b :: bs =>
    if a < b then true else if b < a then false else versionLessThan as bs

/-- The segments of `version.NewVersion("3.8")`. -/
def v38 : List Nat := [3, 8]

/-- `post38Path`: the dedicated namespace-marker path of kernels ≥ 3.8. -/
def post38Path : String := "ns/net"

/-- `pre38Path`: the legacy per-process path used before kernel 3.8. -/
def pre38Path : String := "net/dev"

/-- `getNetNamespacePathSuffix`, with the memoizing package-level variable
`netNamespacePathSuffix` made explicit: takes the cached value (`""` =
not yet resolved) and the kernel-version probe result, and returns the
chosen path together with the new cached value. -/
def getNetNamespacePathSuffix (cache : String) (kv : Option (List Nat)) :
    String × String :=
  if cache ≠ "" then (cache, cache)
  else
    match kv with
    | none => (post38Path, post38Path)
    | some v =>
      if versionLessThan v v38 then (pre38Path, pre38Path)
      else (post38Path, post38Path)

/-- `filepath.Join` of three components (the source's redundant leading
separator in a component, as in `"/net/tcp"`, is cleaned by Go's `Join`;
we write the cleaned component directly). -/
def filepathJoin3 (a b c : String) : String := a ++ "/" ++ b ++ "/" ++ c

/-- `filepath.Join` of two components. -/
def filepathJoin2 (a b : String) : String := a ++ "/" ++ b

/-- `/proc/PID/net/tcp` for a process. -/
def tcpPath (p : Process) : String :=
  filepathJoin3 procRoot (toString p.PID) "net/tcp"

/-- `/proc/PID/net/tcp6` for a process. -/
def tcp6Path (p : Process) : String :=
  filepathJoin3 procRoot (toString p.PID) "net/tcp6"

/-- `/proc/PID/fd`, the descriptor directory of a process. -/
def fdBasePath (p : Process) : String :=
  filepathJoin3 procRoot (toString p.PID) "fd"

/-- `/proc/PID/fd/FD`, one descriptor entry. -/
def fdEntryPath (p : Process) (fd : String) : String :=
  filepathJoin2 (fdBasePath p) fd

/-- `/proc/PID/<suffix>`, the namespace-marker path of a process. -/
def nsPath (p : Process) (sfx : String) : String :=
  filepathJoin3 procRoot (toString p.PID) sfx

/-- A Go map write `m[k] = v`: replace the binding of `k` in place, or
append a new binding at the end. -/
def mapInsert (m : List (Nat × Proc)) (k : Nat) (v : Proc) :
    List (Nat × Proc) :=
  match m with
  | [] => [(k, v)]
  | kv :: rest =>
    if kv.1 = k then (k, v) :: rest else kv :: mapInsert rest k v

/-- The key list of the result map. -/
def keys (m : List (Nat × Proc)) : List Nat := m.map Prod.fst

/-- `readFile`: open a named file and append its contents to the shared
buffer, returning `(bytes read, error)`; `-1` on open failure, as in the
source. -/
def readFile (fs : Fs) (filename : String) (st : ScanSt) :
    (Int × Option String) × ScanSt :=
  match fs.readFileLen filename with
  | .error e => ((-1, some e), st)
  | .ok n => ((Int.ofNat n, none), { st with bufLen := st.bufLen + n })

/-- The member loop of `readProcessConnections`: try each process of the
namespace in order; read both `net/tcp` and `net/tcp6`; on any error move
to the next process (keeping the last pair of errors); on the first
member whose two reads both succeed, report whether any bytes were read.
After the loop, report the surviving `errRead` / `errRead6`. -/
def rpcLoop (fs : Fs) :
    ScanSt → List Process → Option String → Option String →
    (Bool × Option String) × ScanSt
  | st, [], errRead, errRead6 =>
    match errRead with
    | some e => ((false, some e), st)
    | none =>
      match errRead6 with
      | some e => ((false, some e), st)
      | none => ((false, none), st)
  | st, p :: rest, _, _ =>
    let r := readFile fs (tcpPath p) st
    let r6 := readFile fs (tcp6Path p) r.2
    if (r.1.2).isSome || (r6.1.2).isSome then
      rpcLoop fs r6.2 rest r.1.2 r6.1.2
    else
      ((decide (r.1.1 + r6.1.1 > 0), none), r6.2)

/-- `readProcessConnections`: one group-level connection-table read
(ghost: counted in `reads`). -/
def readProcessConnections (fs : Fs) (buf : ScanSt)
    (namespaceProcs : List Process) : (Bool × Option String) × ScanSt :=
  rpcLoop fs { buf with reads := buf.reads + 1 } namespaceProcs none none

/-- `<-ticker` inside the group walk: a blocking receive from the
rate-limit tick source (ghost: counted in `pauses`). -/
def tick (st : ScanSt) : ScanSt := { st with pauses := st.pauses + 1 }

/-- The inner descriptor loop of `walkNamespacePid` for one process:
for each entry of `/proc/PID/fd`, bump `fdBlockCount` (and the ghost
`total`), stat the entry directly, skip it on stat failure or when its
file-type bits are not `S_IFSOCK`, and otherwise record
`inode → owner` in the result map. -/
def fdLoop (fs : Fs) (p : Process) :
    List String → ScanSt → Nat → ScanSt × Nat
  | [], st, fdBlockCount => (st, fdBlockCount)
  | fd :: rest, st, fdBlockCount =>
    let st1 := { st with total := st.total + 1 }
    match fs.stat (fdEntryPath p fd) with
    | none => fdLoop fs p rest st1 (fdBlockCount + 1)
    | some im =>
      if im.2 &&& S_IFMT ≠ S_IFSOCK then fdLoop fs p rest st1 (fdBlockCount + 1)
      else
        fdLoop fs p rest
          { st1 with sockets := mapInsert st1.sockets im.1 ⟨p.PID, p.Name⟩ }
          (fdBlockCount + 1)

/-- One process's descriptor-directory step: list `/proc/PID/fd`; on
listing failure (process gone) skip the process, else run `fdLoop`. -/
def processFds (fs : Fs) (st : ScanSt) (p : Process) (fdBlockCount : Nat) :
    ScanSt × Nat :=
  match fs.readDirNames (fdBasePath p) with
  | none => (st, fdBlockCount)
  | some fds => fdLoop fs p fds st fdBlockCount

/-- The process loop of `walkNamespacePid`: before each process, if
`fdBlockCount > fdBlockSize` block on the ticker, reset the counter, and
re-read the connections of the still-unvisited processes (the current one
included); if that re-read errors or reports an empty table, stop and
return its error.  Then walk the process's descriptors. -/
def wnpLoop (fs : Fs) (fdBlockSize : Nat) :
    List Process → ScanSt → Nat → ScanSt × Option String
  | [], st, _ => (st, none)
  | p :: rest, st, fdBlockCount =>
    if fdBlockCount > fdBlockSize then
      let r := readProcessConnections fs (tick st) (p :: rest)
      if (r.1.2).isSome || !r.1.1 then (r.2, r.1.2)
      else
        let s := processFds fs r.2 p 0
        wnpLoop fs fdBlockSize rest s.1 s.2
    else
      let s := processFds fs st p fdBlockCount
      wnpLoop fs fdBlockSize rest s.1 s.2

/-- `walkNamespacePid`: the walk of one namespace group.  Reads the
group's connection table once (ghost: recording the buffer length at the
start of the read), returns immediately when the read errors or reports
no connections, and otherwise walks every member's descriptors under the
rate limit. -/
def walkNamespacePid (fs : Fs) (st : ScanSt) (namespaceProcs : List Process)
    (fdBlockSize : Nat) : ScanSt × Option String :=
  let st0 := { st with
    groupReadStartLens := st.groupReadStartLens ++ [st.bufLen] }
  let r := readProcessConnections fs st0 namespaceProcs
  if (r.1.2).isSome || !r.1.1 then (r.2, r.1.2)
  else wnpLoop fs fdBlockSize namespaceProcs r.2 0

/-- `namespaces[namespaceID] = append(namespaces[namespaceID], &p)`:
append a process to its namespace group (association list keyed by the
namespace inode, insertion order). -/
def groupAppend : List (Nat × List Process) → Nat → Process →
    List (Nat × List Process)
  | [], ino, p => [(ino, [p])]
  | g :: rest, ino, p =>
    if g.1 = ino then (g.1, g.2 ++ [p]) :: rest
    else g :: groupAppend rest ino p

/-- The grouping traversal of `walkProcPid` (`walker.Walk` callback):
stat each process's namespace-marker path, silently skipping the process
on stat failure, and group by the resulting inode. -/
def gbnLoop (fs : Fs) (sfx : String) :
    List Process → List (Nat × List Process) → List (Nat × List Process)
  | [], acc => acc
  | p :: rest, acc =>
    match fs.stat (nsPath p sfx) with
    | none => gbnLoop fs sfx rest acc
    | some im => gbnLoop fs sfx rest (groupAppend acc im.1 p)

/-- The namespace grouping of a process list. -/
def groupByNamespace (fs : Fs) (sfx : String) (procs : List Process) :
    List (Nat × List Process) :=
  gbnLoop fs sfx procs []

/-- The group loop of `walkProcPid`: for each namespace group (modelled
in first-insertion order), block once on the ticker, then run
`walkNamespacePid`, discarding its error. -/
def wppLoop (fs : Fs) (fdBlockSize : Nat) :
    List (Nat × List Process) → ScanSt → ScanSt
  | [], st => st
  | g :: rest, st =>
    wppLoop fs fdBlockSize rest (walkNamespacePid fs st g.2 fdBlockSize).1

/-- `walkProcPid`: group the live processes by network namespace, then
walk each group; the per-group error is discarded and the returned error
is always `nil`.  The namespace-path suffix, memoized per process
lifetime in the source, is resolved once per scan and passed in. -/
def walkProcPid (fs : Fs) (st : ScanSt) (procs : List Process)
    (fdBlockSize : Nat) (sfx : String) : ScanSt × Option String :=
  let namespaces := groupByNamespace fs sfx procs
  (wppLoop fs fdBlockSize namespaces st, none)

/-- One whole scan from a fresh per-scan state: resolve the (memoized)
namespace-path suffix, then run `walkProcPid`.  Returns the final scan
state, `walkProcPid`'s error, and the new memo cache. -/
def scan (fs : Fs) (procs : List Process) (fdBlockSize : Nat)
    (cache : String) : ScanSt × Option String × String :=
  let sfx := getNetNamespacePathSuffix cache fs.kernelVersion
  let r := walkProcPid fs initSt procs fdBlockSize sfx.1
  (r.1, r.2, sfx.2)

/-- The number of descriptor entries a process contributes to the walk:
the length of its `/proc/PID/fd` listing, zero when the listing fails. -/
def fdCount (fs : Fs) (p : Process) : Nat :=
  match fs.readDirNames (fdBasePath p) with
  | none => 0
  | some fds => fds.length

/-- The error component a `readFile` outcome contributes (`none` on
success). -/
def exErr : Except String Nat → Option String
  | .error e => some e
  | .ok _ => none

/-- The number of bytes one `readFile` call appends to the buffer. -/
def rfLen (fs : Fs) (filename : String) : Nat :=
  match fs.readFileLen filename with
  | .error _ => 0
  | .ok n => n

/-- The number of bytes one `readProcessConnections` call appends to the
buffer: both tables of each tried member, stopping at the first member
whose two reads both succeed. -/
def rpcBytes (fs : Fs) : List Process → Nat
  | [] => 0
  | p :: rest =>
    rfLen fs (tcpPath p) + rfLen fs (tcp6Path p) +
      (if (fs.readFileLen (tcpPath p)).isOk ∧ (fs.readFileLen (tcp6Path p)).isOk
        then 0 else rpcBytes fs rest)

/-- A descriptor of `p` that was observed to be a live socket with inode
`k`: some entry of `p`'s listed descriptor directory whose direct stat
succeeded with file-type bits equal to `S_IFSOCK` and inode `k`. -/
def socketSeen (fs : Fs) (p : Process) (k : Nat) : Prop :=
  ∃ fds, fs.readDirNames (fdBasePath p) = some fds ∧
    ∃ fd ∈ fds, ∃ mode, fs.stat (fdEntryPath p fd) = some (k, mode) ∧
      mode &&& S_IFMT = S_IFSOCK

/-- Fixture: one process (PID 1) in namespace 555 holding three live
socket descriptors, with a non-empty TCP table (3 bytes). -/
def fsA : Fs :=
  { kernelVersion := some [4, 4, 0]
    stat := fun s =>
      if s = "/proc/1/ns/net" then some (555, 0)
      else if s = "/proc/1/fd/0" then some (9000, 49152)
      else if s = "/proc/1/fd/1" then some (9001, 49152)
      else if s = "/proc/1/fd/2" then some (9002, 49152)
      else none
    readDirNames := fun s =>
      if s = "/proc/1/fd" then some ["0", "1", "2"] else none
    readFileLen := fun s =>
      if s = "/proc/1/net/tcp" then .ok 3
      else if s = "/proc/1/net/tcp6" then .ok 0
      else .error "open" }

/-- Fixture: two namespace groups (555 with PID 1, 666 with PID 2), both
with non-empty TCP tables (3 and 2 bytes) and no readable descriptor
directories. -/
def fsB : Fs :=
  { kernelVersion := some [4, 4, 0]
    stat := fun s =>
      if s = "/proc/1/ns/net" then some (555, 0)
      else if s = "/proc/2/ns/net" then some (666, 0)
      else none
    readDirNames := fun _ => none
    readFileLen := fun s =>
      if s = "/proc/1/net/tcp" then .ok 3
      else if s = "/proc/1/net/tcp6" then .ok 0
      else if s = "/proc/2/net/tcp" then .ok 2
      else if s = "/proc/2/net/tcp6" then .ok 0
      else .error "open" }

/-- Fixture: one namespace group (555) shared by PIDs 1 and 2; PID 1 has
two socket descriptors and PID 2 one, and both have non-empty TCP
tables. -/
def fsC : Fs :=
  { kernelVersion := some [4, 4, 0]
    stat := fun s =>
      if s = "/proc/1/ns/net" then some (555, 0)
      else if s = "/proc/2/ns/net" then some (555, 0)
      else if s = "/proc/1/fd/0" then some (9000, 49152)
      else if s = "/proc/1/fd/1" then some (9001, 49152)
      else if s = "/proc/2/fd/0" then some (9100, 49152)
      else none
    readDirNames := fun s =>
      if s = "/proc/1/fd" then some ["0", "1"]
      else if s = "/proc/2/fd" then some ["0"]
      else none
    readFileLen := fun s =>
      if s = "/proc/1/net/tcp" then .ok 3
      else if s = "/proc/1/net/tcp6" then .ok 0
      else if s = "/proc/2/net/tcp" then .ok 3
      else if s = "/proc/2/net/tcp6" then .ok 0
      else .error "open" }

/-- Fixture: a filesystem where every operation fails (all of a group's
processes are gone). -/
def fsD : Fs :=
  { kernelVersion := some [4, 4, 0]
    stat := fun _ => none
    readDirNames := fun _ => none
    readFileLen := fun _ => .error "gone" }

/-- Fixture: one process (PID 4, namespace 700) holding a live socket
descriptor, but whose TCP and TCP6 tables both read back empty (0
bytes). -/
def fsE : Fs :=
  { kernelVersion := some [4, 4, 0]
    stat := fun s =>
      if s = "/proc/4/ns/net" then some (700, 0)
      else if s = "/proc/4/fd/0" then some (8888, 49152)
      else none
    readDirNames := fun s => if s = "/proc/4/fd" then some ["0"] else none
    readFileLen := fun s =>
      if s = "/proc/4/net/tcp" then .ok 0
      else if s = "/proc/4/net/tcp6" then .ok 0
      else .error "open" }

/-- Fixture: a two-member group in which every member fails one of its
two table reads (PID 5 fails TCP, PID 6 fails TCP6). -/
def fsF : Fs :=
  { kernelVersion := some [4, 4, 0]
    stat := fun _ => none
    readDirNames := fun _ => none
    readFileLen := fun s =>
      if s = "/proc/5/net/tcp" then .error "e5"
      else if s = "/proc/5/net/tcp6" then .ok 1
      else if s = "/proc/6/net/tcp" then .ok 1
      else if s = "/proc/6/net/tcp6" then .error "e6"
      else .error "open" }

/-- A mid-walk state with one accumulated result entry, used to exercise
the soft-stop path. -/
def stD : ScanSt :=
  { sockets := [(77, ⟨3, "C"⟩)], bufLen := 0, total := 0, pauses := 0
    reads := 0, groupReadStartLens := [] }

/-- The state `stD` reaches after one rate-limit pause and one failed
connection-table re-read. -/
def st2D : ScanSt :=
  { sockets := [(77, ⟨3, "C"⟩)], bufLen := 0, total := 0, pauses := 1
    reads := 1, groupReadStartLens := [] }

lemma rfLen_ok {fs : Fs} {f : String} {n : Nat}
    (h : fs.readFileLen f = .ok n) : rfLen fs f = n := by
  simp [rfLen, h]

lemma rfLen_error {fs : Fs} {f : String} {e : String}
    (h : fs.readFileLen f = .error e) : rfLen fs f = 0 := by
  simp [rfLen, h]

lemma readFile_snd (fs : Fs) (f : String) (st : ScanSt) :
    (readFile fs f st).2 = { st with bufLen := st.bufLen + rfLen fs f } := by
  cases h : fs.readFileLen f <;> simp [readFile, rfLen, h]

lemma readFile_fst (fs : Fs) (f : String) (st st' : ScanSt) :
    (readFile fs f st).1 = (readFile fs f st').1 := by
  cases h : fs.readFileLen f <;> simp [readFile, h]

lemma readFile_err_isSome (fs : Fs) (f : String) (st : ScanSt) :
    ((readFile fs f st).1.2).isSome = !(fs.readFileLen f).isOk := by
  cases h : fs.readFileLen f <;> simp [readFile, h, Except.isOk, Except.toBool]

lemma rpcLoop_snd (fs : Fs) (l : List Process) :
    ∀ (st : ScanSt) (e1 e2 : Option String),
      (rpcLoop fs st l e1 e2).2 =
        { st with bufLen := st.bufLen + rpcBytes fs l } := by
  induction l with
  | nil =>
    intro st e1 e2
    cases e1 <;> cases e2 <;> simp [rpcLoop, rpcBytes]
  | cons p rest ih =>
    intro st e1 e2
    rw [rpcLoop]
    rcases h1 : fs.readFileLen (tcpPath p) with e | n <;>
      rcases h2 : fs.readFileLen (tcp6Path p) with e' | n' <;>
      simp [readFile, h1, h2, rpcBytes, rfLen, Except.isOk, Except.toBool, ih,
        Nat.add_assoc]

lemma rpcLoop_fst (fs : Fs) (l : List Process) :
    ∀ (st st' : ScanSt) (e1 e2 : Option String),
      (rpcLoop fs st l e1 e2).1 = (rpcLoop fs st' l e1 e2).1 := by
  induction l with
  | nil =>
    intro st st' e1 e2
    cases e1 <;> cases e2 <;> simp [rpcLoop]
  | cons p rest ih =>
    intro st st' e1 e2
    rw [rpcLoop, rpcLoop]
    rcases h1 : fs.readFileLen (tcpPath p) with e | n <;>
      rcases h2 : fs.readFileLen (tcp6Path p) with e' | n' <;>
      simp [readFile, h1, h2] <;> apply ih

lemma readProcessConnections_snd (fs : Fs) (st : ScanSt) (l : List Process) :
    (readProcessConnections fs st l).2 =
      { st with reads := st.reads + 1, bufLen := st.bufLen + rpcBytes fs l } := by
  simp [readProcessConnections, rpcLoop_snd]

lemma readProcessConnections_fst (fs : Fs) (st st' : ScanSt) (l : List Process) :
    (readProcessConnections fs st l).1 = (readProcessConnections fs st' l).1 := by
  simp [readProcessConnections]
  apply rpcLoop_fst

lemma keys_mapInsert_sublist (m : List (Nat × Proc)) (k : Nat) (v : Proc) :
    List.Sublist (keys m) (keys (mapInsert m k v)) := by
  induction m with
  | nil => simp [mapInsert, keys]
  | cons kv rest ih =>
    by_cases h : kv.1 = k
    · simp only [mapInsert, h, if_pos rfl, keys, List.map_cons]
      exact List.Sublist.refl _
    · simp only [mapInsert, if_neg h, keys, List.map_cons]
      exact List.Sublist.cons₂ _ ih

lemma mem_keys_mapInsert {a k : Nat} {v : Proc} {m : List (Nat × Proc)}
    (h : a ∈ keys (mapInsert m k v)) : a = k ∨ a ∈ keys m := by
  induction m with
  | nil => simpa [mapInsert, keys] using h
  | cons kv rest ih =>
    by_cases hk : kv.1 = k
    · simp only [mapInsert, if_pos hk, keys, List.map_cons, List.mem_cons] at h
      rcases h with h | h
      · exact Or.inl h
      · exact Or.inr (by simp [keys, List.mem_cons, h])
    · simp only [mapInsert, if_neg hk, keys, List.map_cons, List.mem_cons] at h
      rcases h with h | h
      · exact Or.inr (by simp [keys, h])
      · rcases ih h with h' | h'
        · exact Or.inl h'
        · exact Or.inr (by simp [keys] at h' ⊢; exact Or.inr h')

lemma fdLoop_snd (fs : Fs) (p : Process) (fds : List String) :
    ∀ (st : ScanSt) (c : Nat), (fdLoop fs p fds st c).2 = c + fds.length := by
  induction fds with
  | nil => intro st c; simp [fdLoop]
  | cons fd rest ih =>
    intro st c
    rw [fdLoop]
    rcases h : fs.stat (fdEntryPath p fd) with _ | im
    · simp [h, ih]; omega
    · by_cases hm : im.2 &&& S_IFMT ≠ S_IFSOCK <;> simp [h, hm, ih] <;> omega

lemma fdLoop_frame (fs : Fs) (p : Process) (fds : List String) :
    ∀ (st : ScanSt) (c : Nat),
      (fdLoop fs p fds st c).1.bufLen = st.bufLen ∧
      (fdLoop fs p fds st c).1.pauses = st.pauses ∧
      (fdLoop fs p fds st c).1.reads = st.reads ∧
      (fdLoop fs p fds st c).1.groupReadStartLens = st.groupReadStartLens ∧
      (fdLoop fs p fds st c).1.total = st.total + fds.length := by
  induction fds with
  | nil => intro st c; simp [fdLoop]
  | cons fd rest ih =>
    intro st c
    rw [fdLoop]
    rcases h : fs.stat (fdEntryPath p fd) with _ | im
    · simp [h, ih]; omega
    · by_cases hm : im.2 &&& S_IFMT ≠ S_IFSOCK <;> simp [h, hm, ih] <;> omega

lemma fdLoop_keys_sublist (fs : Fs) (p : Process) (fds : List String) :
    ∀ (st : ScanSt) (c : Nat),
      List.Sublist (keys st.sockets) (keys (fdLoop fs p fds st c).1.sockets) := by
  induction fds with
  | nil => intro st c; simp [fdLoop]
  | cons fd rest ih =>
    intro st c
    rw [fdLoop]
    rcases h : fs.stat (fdEntryPath p fd) with _ | im
    · simp only [h]
      exact ih { st with total := st.total + 1 } (c + 1)
    · simp only [h]
      by_cases hm : im.2 &&& S_IFMT ≠ S_IFSOCK
      · rw [if_pos hm]
        exact ih { st with total := st.total + 1 } (c + 1)
      · rw [if_neg hm]
        exact List.Sublist.trans
          (keys_mapInsert_sublist st.sockets im.1 ⟨p.PID, p.Name⟩)
          (ih { st with
              sockets := mapInsert st.sockets im.1 ⟨p.PID, p.Name⟩,
              total := st.total + 1 } (c + 1))

lemma fdLoop_keys_src (fs : Fs) (p : Process) (fds : List String) :
    ∀ (st : ScanSt) (c : Nat) (k : Nat),
      k ∈ keys (fdLoop fs p fds st c).1.sockets →
      k ∈ keys st.sockets ∨
        ∃ fd ∈ fds, ∃ mode, fs.stat (fdEntryPath p fd) = some (k, mode) ∧
          mode &&& S_IFMT = S_IFSOCK := by
  induction fds with
  | nil => intro st c k hk; simp [fdLoop] at hk; exact Or.inl hk
  | cons fd rest ih =>
    intro st c k hk
    rw [fdLoop] at hk
    rcases h : fs.stat (fdEntryPath p fd) with _ | im <;> simp only [h] at hk
    · rcases ih _ _ _ hk with h' | ⟨fd', hfd', w⟩
      · exact Or.inl h'
      · exact Or.inr ⟨fd', List.mem_cons_of_mem _ hfd', w⟩
    · by_cases hm : im.2 &&& S_IFMT ≠ S_IFSOCK
      · rw [if_pos hm] at hk
        rcases ih _ _ _ hk with h' | ⟨fd', hfd', w⟩
        · exact Or.inl h'
        · exact Or.inr ⟨fd', List.mem_cons_of_mem _ hfd', w⟩
      · rw [if_neg hm] at hk
        push_neg at hm
        rcases ih _ _ _ hk with h' | ⟨fd', hfd', w⟩
        · rcases mem_keys_mapInsert h' with h'' | h''
          · subst h''
            exact Or.inr ⟨fd, List.mem_cons_self _ _, im.2, by simpa using h, hm⟩
          · exact Or.inl h''
        · exact Or.inr ⟨fd', List.mem_cons_of_mem _ hfd', w⟩

lemma processFds_snd (fs : Fs) (st : ScanSt) (p : Process) (c : Nat) :
    (processFds fs st p c).2 = c + fdCount fs p := by
  rcases h : fs.readDirNames (fdBasePath p) with _ | fds <;>
    simp [processFds, fdCount, h, fdLoop_snd]

lemma processFds_frame (fs : Fs) (st : ScanSt) (p : Process) (c : Nat) :
    (processFds fs st p c).1.bufLen = st.bufLen ∧
    (processFds fs st p c).1.pauses = st.pauses ∧
    (processFds fs st p c).1.reads = st.reads ∧
    (processFds fs st p c).1.groupReadStartLens = st.groupReadStartLens ∧
    (processFds fs st p c).1.total = st.total + fdCount fs p := by
  rcases h : fs.readDirNames (fdBasePath p) with _ | fds <;>
    simp [processFds, fdCount, h, fdLoop_frame]

lemma processFds_keys_sublist (fs : Fs) (st : ScanSt) (p : Process) (c : Nat) :
    List.Sublist (keys st.sockets) (keys (processFds fs st p c).1.sockets) := by
  rcases h : fs.readDirNames (fdBasePath p) with _ | fds <;>
    simp [processFds, h, fdLoop_keys_sublist]

lemma processFds_keys_src (fs : Fs) (st : ScanSt) (p : Process) (c : Nat)
    (k : Nat) (hk : k ∈ keys (processFds fs st p c).1.sockets) :
    k ∈ keys st.sockets ∨ socketSeen fs p k := by
  rcases h : fs.readDirNames (fdBasePath p) with _ | fds
  · simp [processFds, h] at hk; exact Or.inl hk
  · rw [processFds, h] at hk
    rcases fdLoop_keys_src fs p fds st c k hk with h' | ⟨fd, hfd, w⟩
    · exact Or.inl h'
    · exact Or.inr ⟨fds, h, fd, hfd, w⟩

lemma rpc_snd_components (fs : Fs) (st st2 : ScanSt) (l : List Process)
    (found : Bool) (err : Option String)
    (hr : readProcessConnections fs st l = ((found, err), st2)) :
    st2.sockets = st.sockets ∧ st2.total = st.total ∧
    st2.pauses = st.pauses ∧ st2.reads = st.reads + 1 ∧
    st2.groupReadStartLens = st.groupReadStartLens ∧
    st2.bufLen = st.bufLen + rpcBytes fs l := by
  have h2 : st2 = { st with reads := st.reads + 1
                            bufLen := st.bufLen + rpcBytes fs l } :=
    (congrArg Prod.snd hr).symm.trans (readProcessConnections_snd fs st l)
  simp [h2]

lemma wnpLoop_trace (fs : Fs) (K : Nat) (l : List Process) :
    ∀ (st : ScanSt) (c : Nat),
      (wnpLoop fs K l st c).1.groupReadStartLens = st.groupReadStartLens := by
  induction l with
  | nil => intro st c; simp [wnpLoop]
  | cons p rest ih =>
    intro st c
    simp only [wnpLoop]
    by_cases hc : c > K
    · rw [if_pos hc]
      rcases hr : readProcessConnections fs (tick st) (p :: rest)
        with ⟨⟨found, err⟩, st2⟩
      obtain ⟨-, -, -, -, htr, -⟩ :=
        rpc_snd_components fs (tick st) st2 (p :: rest) found err hr
      dsimp only
      by_cases hbad : (err.isSome || !found) = true
      · rw [if_pos hbad]
        simp [htr, tick]
      · rw [if_neg hbad, ih]
        have := (processFds_frame fs st2 p 0).2.2.2.1
        simp [this, htr, tick]
    · rw [if_neg hc]
      rw [ih]
      exact (processFds_frame fs st p c).2.2.2.1

lemma wnpLoop_keys_sublist (fs : Fs) (K : Nat) (l : List Process) :
    ∀ (st : ScanSt) (c : Nat),
      List.Sublist (keys st.sockets) (keys (wnpLoop fs K l st c).1.sockets) := by
  induction l with
  | nil => intro st c; simp [wnpLoop]
  | cons p rest ih =>
    intro st c
    simp only [wnpLoop]
    by_cases hc : c > K
    · rw [if_pos hc]
      rcases hr : readProcessConnections fs (tick st) (p :: rest)
        with ⟨⟨found, err⟩, st2⟩
      obtain ⟨hso, -, -, -, -, -⟩ :=
        rpc_snd_components fs (tick st) st2 (p :: rest) found err hr
      have hso' : st2.sockets = st.sockets := by simpa [tick] using hso
      dsimp only
      by_cases hbad : (err.isSome || !found) = true
      · rw [if_pos hbad]
        simp [hso']
      · rw [if_neg hbad]
        refine List.Sublist.trans ?_ (ih _ _)
        rw [← hso']
        exact processFds_keys_sublist fs st2 p 0
    · rw [if_neg hc]
      exact List.Sublist.trans (processFds_keys_sublist fs st p c) (ih _ _)

lemma wnpLoop_keys_src (fs : Fs) (K : Nat) (l : List Process) :
    ∀ (st : ScanSt) (c : Nat) (k : Nat),
      k ∈ keys (wnpLoop fs K l st c).1.sockets →
      k ∈ keys st.sockets ∨ ∃ p ∈ l, socketSeen fs p k := by
  induction l with
  | nil => intro st c k hk; simp [wnpLoop] at hk; exact Or.inl hk
  | cons p rest ih =>
    intro st c k hk
    simp only [wnpLoop] at hk
    by_cases hc : c > K
    · rw [if_pos hc] at hk
      rcases hr : readProcessConnections fs (tick st) (p :: rest)
        with ⟨⟨found, err⟩, st2⟩
      rw [hr] at hk
      obtain ⟨hso, -, -, -, -, -⟩ :=
        rpc_snd_components fs (tick st) st2 (p :: rest) found err hr
      have hso' : st2.sockets = st.sockets := by simpa [tick] using hso
      by_cases hbad : (err.isSome || !found) = true
      · rw [if_pos hbad] at hk
        simp only [hso'] at hk
        exact Or.inl hk
      · rw [if_neg hbad] at hk
        rcases ih _ _ _ hk with h' | ⟨q, hq, w⟩
        · rcases processFds_keys_src fs st2 p 0 k h' with h'' | w
          · rw [hso'] at h''; exact Or.inl h''
          · exact Or.inr ⟨p, List.mem_cons_self _ _, w⟩
        · exact Or.inr ⟨q, List.mem_cons_of_mem _ hq, w⟩
    · rw [if_neg hc] at hk
      rcases ih _ _ _ hk with h' | ⟨q, hq, w⟩
      · rcases processFds_keys_src fs st p c k h' with h'' | w
        · exact Or.inl h''
        · exact Or.inr ⟨p, List.mem_cons_self _ _, w⟩
      · exact Or.inr ⟨q, List.mem_cons_of_mem _ hq, w⟩

lemma wnpLoop_reads_pauses (fs : Fs) (K : Nat) (l : List Process) :
    ∀ (st : ScanSt) (c : Nat),
      (wnpLoop fs K l st c).1.reads + st.pauses =
        st.reads + (wnpLoop fs K l st c).1.pauses := by
  induction l with
  | nil => intro st c; simp [wnpLoop]
  | cons p rest ih =>
    intro st c
    simp only [wnpLoop]
    by_cases hc : c > K
    · rw [if_pos hc]
      rcases hr : readProcessConnections fs (tick st) (p :: rest)
        with ⟨⟨found, err⟩, st2⟩
      obtain ⟨-, -, hpa, hre, -, -⟩ :=
        rpc_snd_components fs (tick st) st2 (p :: rest) found err hr
      have hpa' : st2.pauses = st.pauses + 1 := by simpa [tick] using hpa
      have hre' : st2.reads = st.reads + 1 := by simpa [tick] using hre
      dsimp only
      by_cases hbad : (err.isSome || !found) = true
      · rw [if_pos hbad]
        dsimp only
        omega
      · rw [if_neg hbad]
        have hfr := processFds_frame fs st2 p 0
        have := ih (processFds fs st2 p 0).1 (processFds fs st2 p 0).2
        omega
    · rw [if_neg hc]
      have hfr := processFds_frame fs st p c
      have := ih (processFds fs st p c).1 (processFds fs st p c).2
      omega

lemma wnpLoop_bufLen_mono (fs : Fs) (K : Nat) (l : List Process) :
    ∀ (st : ScanSt) (c : Nat),
      st.bufLen ≤ (wnpLoop fs K l st c).1.bufLen := by
  induction l with
  | nil => intro st c; simp [wnpLoop]
  | cons p rest ih =>
    intro st c
    simp only [wnpLoop]
    by_cases hc : c > K
    · rw [if_pos hc]
      rcases hr : readProcessConnections fs (tick st) (p :: rest)
        with ⟨⟨found, err⟩, st2⟩
      obtain ⟨-, -, -, -, -, hbl⟩ :=
        rpc_snd_components fs (tick st) st2 (p :: rest) found err hr
      have hbl' : st.bufLen ≤ st2.bufLen := by simp [tick] at hbl; omega
      dsimp only
      by_cases hbad : (err.isSome || !found) = true
      · rw [if_pos hbad]
        exact hbl'
      · rw [if_neg hbad]
        have hfr := (processFds_frame fs st2 p 0).1
        have := ih (processFds fs st2 p 0).1 (processFds fs st2 p 0).2
        omega
    · rw [if_neg hc]
      have hfr := (processFds_frame fs st p c).1
      have := ih (processFds fs st p c).1 (processFds fs st p c).2
      omega

lemma wnpLoop_rate (fs : Fs) (K F : Nat) (l : List Process) :
    ∀ (st : ScanSt) (c : Nat),
      (∀ p ∈ l, fdCount fs p ≤ F) → c ≤ K + F →
      (wnpLoop fs K l st c).1.total + st.pauses * (K + F) + c ≤
        st.total + (wnpLoop fs K l st c).1.pauses * (K + F) + (K + F) := by
  induction l with
  | nil =>
    intro st c _ hcW
    simp only [wnpLoop]
    linarith
  | cons p rest ih =>
    intro st c hF hcW
    have hfF : fdCount fs p ≤ F := hF p (List.mem_cons_self _ _)
    have hF' : ∀ q ∈ rest, fdCount fs q ≤ F := fun q hq =>
      hF q (List.mem_cons_of_mem _ hq)
    simp only [wnpLoop]
    by_cases hc : c > K
    · rw [if_pos hc]
      rcases hr : readProcessConnections fs (tick st) (p :: rest)
        with ⟨⟨found, err⟩, st2⟩
      obtain ⟨-, hto, hpa, -, -, -⟩ :=
        rpc_snd_components fs (tick st) st2 (p :: rest) found err hr
      have hto' : st2.total = st.total := by simpa [tick] using hto
      have hpa' : st2.pauses = st.pauses + 1 := by simpa [tick] using hpa
      have hmul : st2.pauses * (K + F) = st.pauses * (K + F) + (K + F) := by
        rw [hpa']; ring
      dsimp only
      by_cases hbad : (err.isSome || !found) = true
      · rw [if_pos hbad]
        dsimp only
        linarith
      · rw [if_neg hbad]
        have hsnd := processFds_snd fs st2 p 0
        rw [hsnd]
        have hihyp : (processFds fs st2 p 0).2 ≤ K + F := by rw [hsnd]; omega
        have hI := ih (processFds fs st2 p 0).1 (processFds fs st2 p 0).2
          hF' hihyp
        rw [hsnd] at hI
        have hp3 : (processFds fs st2 p 0).1.pauses = st.pauses + 1 := by
          rw [(processFds_frame fs st2 p 0).2.1, hpa']
        have hmul3 : (processFds fs st2 p 0).1.pauses * (K + F) =
            st.pauses * (K + F) + (K + F) := by rw [hp3]; ring
        have ht3 : (processFds fs st2 p 0).1.total =
            st.total + fdCount fs p := by
          rw [(processFds_frame fs st2 p 0).2.2.2.2, hto']
        rw [hmul3, ht3] at hI
        linarith
    · rw [if_neg hc]
      have hcK : c ≤ K := by omega
      have hsnd := processFds_snd fs st p c
      rw [hsnd]
      have hihyp : (processFds fs st p c).2 ≤ K + F := by rw [hsnd]; omega
      have hI := ih (processFds fs st p c).1 (processFds fs st p c).2
        hF' hihyp
      rw [hsnd] at hI
      have hp3 : (processFds fs st p c).1.pauses = st.pauses :=
        (processFds_frame fs st p c).2.1
      have ht3 : (processFds fs st p c).1.total = st.total + fdCount fs p :=
        (processFds_frame fs st p c).2.2.2.2
      rw [hp3, ht3] at hI
      linarith

lemma walkNamespacePid_rate (fs : Fs) (K F : Nat) (g : List Process)
    (st : ScanSt) (hF : ∀ p ∈ g, fdCount fs p ≤ F) :
    (walkNamespacePid fs st g K).1.total + st.pauses * (K + F) ≤
      st.total + ((walkNamespacePid fs st g K).1.pauses + 1) * (K + F) := by
  simp only [walkNamespacePid]
  rcases hr : readProcessConnections fs
      { st with groupReadStartLens := st.groupReadStartLens ++ [st.bufLen] } g
    with ⟨⟨found, err⟩, st2⟩
  obtain ⟨-, hto, hpa, -, -, -⟩ := rpc_snd_components fs _ st2 g found err hr
  have hto' : st2.total = st.total := by simpa using hto
  have hpa' : st2.pauses = st.pauses := by simpa using hpa
  dsimp only
  by_cases hbad : (err.isSome || !found) = true
  · rw [if_pos hbad]
    dsimp only
    nlinarith
  · rw [if_neg hbad]
    have hI := wnpLoop_rate fs K F g st2 0 hF (Nat.zero_le _)
    rw [hto', hpa'] at hI
    nlinarith

lemma walkNamespacePid_trace (fs : Fs) (K : Nat) (g : List Process)
    (st : ScanSt) :
    (walkNamespacePid fs st g K).1.groupReadStartLens =
      st.groupReadStartLens ++ [st.bufLen] := by
  simp only [walkNamespacePid]
  rcases hr : readProcessConnections fs
      { st with groupReadStartLens := st.groupReadStartLens ++ [st.bufLen] } g
    with ⟨⟨found, err⟩, st2⟩
  obtain ⟨-, -, -, -, htr, -⟩ := rpc_snd_components fs _ st2 g found err hr
  have htr' : st2.groupReadStartLens = st.groupReadStartLens ++ [st.bufLen] := by
    simpa using htr
  dsimp only
  by_cases hbad : (err.isSome || !found) = true
  · rw [if_pos hbad]
    exact htr'
  · rw [if_neg hbad, wnpLoop_trace]
    exact htr'

lemma walkNamespacePid_bufLen_mono (fs : Fs) (K : Nat) (g : List Process)
    (st : ScanSt) :
    st.bufLen ≤ (walkNamespacePid fs st g K).1.bufLen := by
  simp only [walkNamespacePid]
  rcases hr : readProcessConnections fs
      { st with groupReadStartLens := st.groupReadStartLens ++ [st.bufLen] } g
    with ⟨⟨found, err⟩, st2⟩
  obtain ⟨-, -, -, -, -, hbl⟩ := rpc_snd_components fs _ st2 g found err hr
  have hbl' : st.bufLen ≤ st2.bufLen := by simp at hbl; omega
  dsimp only
  by_cases hbad : (err.isSome || !found) = true
  · rw [if_pos hbad]
    exact hbl'
  · rw [if_neg hbad]
    exact le_trans hbl' (wnpLoop_bufLen_mono fs K g st2 0)

lemma walkNamespacePid_reads_pauses (fs : Fs) (K : Nat) (g : List Process)
    (st : ScanSt) :
    (walkNamespacePid fs st g K).1.reads + st.pauses =
      st.reads + 1 + (walkNamespacePid fs st g K).1.pauses := by
  simp only [walkNamespacePid]
  rcases hr : readProcessConnections fs
      { st with groupReadStartLens := st.groupReadStartLens ++ [st.bufLen] } g
    with ⟨⟨found, err⟩, st2⟩
  obtain ⟨-, -, hpa, hre, -, -⟩ := rpc_snd_components fs _ st2 g found err hr
  have hpa' : st2.pauses = st.pauses := by simpa using hpa
  have hre' : st2.reads = st.reads + 1 := by simpa using hre
  dsimp only
  by_cases hbad : (err.isSome || !found) = true
  · rw [if_pos hbad]
    dsimp only
    omega
  · rw [if_neg hbad]
    have := wnpLoop_reads_pauses fs K g st2 0
    omega

lemma walkNamespacePid_keys_sublist (fs : Fs) (K : Nat) (g : List Process)
    (st : ScanSt) :
    List.Sublist (keys st.sockets)
      (keys (walkNamespacePid fs st g K).1.sockets) := by
  simp only [walkNamespacePid]
  rcases hr : readProcessConnections fs
      { st with groupReadStartLens := st.groupReadStartLens ++ [st.bufLen] } g
    with ⟨⟨found, err⟩, st2⟩
  obtain ⟨hso, -, -, -, -, -⟩ := rpc_snd_components fs _ st2 g found err hr
  have hso' : st2.sockets = st.sockets := by simpa using hso
  dsimp only
  by_cases hbad : (err.isSome || !found) = true
  · rw [if_pos hbad]
    dsimp only
    rw [hso']
  · rw [if_neg hbad]
    have := wnpLoop_keys_sublist fs K g st2 0
    rwa [hso'] at this

lemma walkNamespacePid_keys_src (fs : Fs) (K : Nat) (g : List Process)
    (st : ScanSt) (k : Nat)
    (hk : k ∈ keys (walkNamespacePid fs st g K).1.sockets) :
    k ∈ keys st.sockets ∨
      ((readProcessConnections fs initSt g).1.1 = true ∧
        ∃ p ∈ g, socketSeen fs p k) := by
  rw [walkNamespacePid] at hk
  rcases hr : readProcessConnections fs
      { st with groupReadStartLens := st.groupReadStartLens ++ [st.bufLen] } g
    with ⟨⟨found, err⟩, st2⟩
  rw [hr] at hk
  obtain ⟨hso, -, -, -, -, -⟩ := rpc_snd_components fs _ st2 g found err hr
  have hso' : st2.sockets = st.sockets := by simpa using hso
  have hfst : (readProcessConnections fs initSt g).1 = (found, err) := by
    rw [readProcessConnections_fst fs initSt
      { st with groupReadStartLens := st.groupReadStartLens ++ [st.bufLen] } g,
      hr]
  dsimp only at hk
  by_cases hbad : (err.isSome || !found) = true
  · rw [if_pos hbad] at hk
    dsimp only at hk
    rw [hso'] at hk
    exact Or.inl hk
  · rw [if_neg hbad] at hk
    have hfound : found = true := by
      cases found with
      | true => rfl
      | false => exact absurd (by simp) hbad
    rcases wnpLoop_keys_src fs K g st2 0 k hk with h' | ⟨p, hp, w⟩
    · rw [hso'] at h'
      exact Or.inl h'
    · exact Or.inr ⟨by rw [hfst, hfound], p, hp, w⟩

lemma chain_last_le {l : List Nat} {b b' : Nat}
    (h : List.Chain' (· ≤ ·) (l ++ [b])) (hb : b ≤ b') :
    List.Chain' (· ≤ ·) (l ++ [b']) := by
  rcases List.chain'_append.mp h with ⟨h1, -, h3⟩
  refine List.chain'_append.mpr ⟨h1, List.chain'_singleton _, ?_⟩
  intro x hx y hy
  simp only [List.head?_cons, Option.mem_def, Option.some.injEq] at hy
  subst hy
  exact le_trans (h3 x hx b (by simp)) hb

lemma chain_snoc_dup {l : List Nat} {b : Nat}
    (h : List.Chain' (· ≤ ·) (l ++ [b])) :
    List.Chain' (· ≤ ·) ((l ++ [b]) ++ [b]) := by
  refine List.chain'_append.mpr ⟨h, List.chain'_singleton _, ?_⟩
  intro x hx y hy
  simp only [List.head?_cons, Option.mem_def, Option.some.injEq] at hy
  subst hy
  have hlast : (l ++ [b]).getLast? = some b := by
    rw [List.getLast?_append_of_ne_nil _ (by simp)]
    rfl
  rw [hlast] at hx
  simp only [Option.mem_def, Option.some.injEq] at hx
  subst hx
  exact le_refl _

lemma walkNamespacePid_chain (fs : Fs) (K : Nat) (g : List Process)
    (st : ScanSt)
    (h : List.Chain' (· ≤ ·) (st.groupReadStartLens ++ [st.bufLen])) :
    List.Chain' (· ≤ ·)
      ((walkNamespacePid fs st g K).1.groupReadStartLens ++
        [(walkNamespacePid fs st g K).1.bufLen]) := by
  rw [walkNamespacePid_trace]
  exact chain_last_le (chain_snoc_dup h) (walkNamespacePid_bufLen_mono fs K g st)

lemma wppLoop_keys_sublist (fs : Fs) (K : Nat)
    (gs : List (Nat × List Process)) :
    ∀ st : ScanSt,
      List.Sublist (keys st.sockets) (keys (wppLoop fs K gs st).sockets) := by
  induction gs with
  | nil => intro st; simp [wppLoop]
  | cons g rest ih =>
    intro st
    rw [wppLoop]
    exact List.Sublist.trans (walkNamespacePid_keys_sublist fs K g.2 st) (ih _)

lemma wppLoop_keys_src (fs : Fs) (K : Nat)
    (gs : List (Nat × List Process)) :
    ∀ (st : ScanSt) (k : Nat),
      k ∈ keys (wppLoop fs K gs st).sockets →
      k ∈ keys st.sockets ∨
        ∃ g ∈ gs, (readProcessConnections fs initSt g.2).1.1 = true ∧
          ∃ p ∈ g.2, socketSeen fs p k := by
  induction gs with
  | nil => intro st k hk; rw [wppLoop] at hk; exact Or.inl hk
  | cons g rest ih =>
    intro st k hk
    rw [wppLoop] at hk
    rcases ih _ _ hk with h' | ⟨g', hg', w⟩
    · rcases walkNamespacePid_keys_src fs K g.2 st k h' with h'' | ⟨hf, p, hp, w⟩
      · exact Or.inl h''
      · exact Or.inr ⟨g, List.mem_cons_self _ _, hf, p, hp, w⟩
    · exact Or.inr ⟨g', List.mem_cons_of_mem _ hg', w⟩

lemma wppLoop_reads_pauses (fs : Fs) (K : Nat)
    (gs : List (Nat × List Process)) :
    ∀ st : ScanSt,
      (wppLoop fs K gs st).reads + st.pauses =
        st.reads + gs.length + (wppLoop fs K gs st).pauses := by
  induction gs with
  | nil => intro st; simp [wppLoop]
  | cons g rest ih =>
    intro st
    rw [wppLoop]
    have h1 := walkNamespacePid_reads_pauses fs K g.2 st
    have h2 := ih (walkNamespacePid fs st g.2 K).1
    simp only [List.length_cons]
    omega

lemma wppLoop_chain (fs : Fs) (K : Nat) (gs : List (Nat × List Process)) :
    ∀ st : ScanSt,
      List.Chain' (· ≤ ·) (st.groupReadStartLens ++ [st.bufLen]) →
      List.Chain' (· ≤ ·)
        ((wppLoop fs K gs st).groupReadStartLens ++
          [(wppLoop fs K gs st).bufLen]) := by
  induction gs with
  | nil => intro st h; rwa [wppLoop]
  | cons g rest ih =>
    intro st h
    rw [wppLoop]
    exact ih _ (walkNamespacePid_chain fs K g.2 st h)

lemma getNNPS_stable (cache : String) (kv : Option (List Nat)) :
    getNetNamespacePathSuffix (getNetNamespacePathSuffix cache kv).2 kv =
      getNetNamespacePathSuffix cache kv := by
  by_cases hc : cache = ""
  · subst hc
    rcases kv with _ | v
    · simp [getNetNamespacePathSuffix, post38Path]
    · by_cases h : versionLessThan v v38 <;>
        simp [getNetNamespacePathSuffix, h, pre38Path, post38Path]
  · simp [getNetNamespacePathSuffix, hc]

/-- C10: `walkProcPid` returns a `nil` error for every input: each
per-group walk's error is discarded by the group loop, so the top-level
walk can never report failure through its error result. -/
theorem claim_C10_walkProcPid_err_nil (fs : Fs) (st : ScanSt)
    (procs : List Process) (fdBlockSize : Nat) (sfx : String) :
    (walkProcPid fs st procs fdBlockSize sfx).2 = none := rfl

/-- C8: the namespace-path resolver returns the legacy per-process path
(`net/dev`) on a fresh cache exactly when the detected kernel version is
below 3.8, returns the modern namespace-marker path (`ns/net`) when the
version is 3.8 or later or when detection fails, and once resolved every
later call returns the same memoized value without consulting the kernel
probe again (the second call's result is independent of `kv'`). -/
theorem claim_C8_resolver (v : List Nat) (kv kv' : Option (List Nat)) :
    (getNetNamespacePathSuffix "" none).1 = post38Path ∧
    (getNetNamespacePathSuffix "" (some v)).1 =
      (if versionLessThan v v38 then pre38Path else post38Path) ∧
    getNetNamespacePathSuffix (getNetNamespacePathSuffix "" kv).2 kv' =
      ((getNetNamespacePathSuffix "" kv).1,
        (getNetNamespacePathSuffix "" kv).1) := by
  refine ⟨by simp [getNetNamespacePathSuffix], ?_, ?_⟩
  · by_cases h : versionLessThan v v38 <;> simp [getNetNamespacePathSuffix, h]
  · rcases kv with _ | v2
    · simp [getNetNamespacePathSuffix, post38Path]
    · by_cases h : versionLessThan v2 v38 <;>
        simp [getNetNamespacePathSuffix, h, pre38Path, post38Path]

/-- C9: scanning is idempotent over an unchanged procfs tree: with the
filesystem fixed, running the scan again (with the memo cache left by
the first scan) yields an identical inode → process result map. -/
theorem claim_C9_idempotent (fs : Fs) (procs : List Process)
    (fdBlockSize : Nat) (cache : String) :
    (scan fs procs fdBlockSize
        (scan fs procs fdBlockSize cache).2.2).1.sockets =
      (scan fs procs fdBlockSize cache).1.sockets := by
  simp only [scan]
  rw [getNNPS_stable]

/-- C4: if every member of a namespace group has both its TCP and TCP6
table reads succeed with zero total bytes, then the group read reports
`nonEmpty = false` with a `nil` error, the socket-owner walk never runs
for the group (no descriptor is examined), no inode is contributed to the
result map — even though the group's descriptors may be live sockets —
and the group walk's error is `nil`. -/
theorem claim_C4_empty_group_skipped (fs : Fs) (g : List Process)
    (st : ScanSt) (fdBlockSize : Nat)
    (h : ∀ p ∈ g, fs.readFileLen (tcpPath p) = .ok 0 ∧
                  fs.readFileLen (tcp6Path p) = .ok 0) :
    (readProcessConnections fs st g).1 = (false, none) ∧
    (walkNamespacePid fs st g fdBlockSize).1.sockets = st.sockets ∧
    (walkNamespacePid fs st g fdBlockSize).1.total = st.total ∧
    (walkNamespacePid fs st g fdBlockSize).2 = none := by
  have hrpc : ∀ st' : ScanSt, (readProcessConnections fs st' g).1 =
      (false, none) := by
    intro st'
    cases g with
    | nil => simp [readProcessConnections, rpcLoop]
    | cons p rest =>
      obtain ⟨h1, h2⟩ := h p (List.mem_cons_self _ _)
      simp [readProcessConnections, rpcLoop, readFile, h1, h2]
  refine ⟨hrpc st, ?_⟩
  simp only [walkNamespacePid]
  rcases hr : readProcessConnections fs
      { st with groupReadStartLens := st.groupReadStartLens ++ [st.bufLen] } g
    with ⟨⟨found, err⟩, st2⟩
  have hfe : (found, err) = (false, none) := by
    have h0 := hrpc
      { st with groupReadStartLens := st.groupReadStartLens ++ [st.bufLen] }
    rw [hr] at h0
    exact h0
  rw [Prod.mk.injEq] at hfe
  obtain ⟨hf, he⟩ := hfe
  subst hf; subst he
  obtain ⟨hso, hto, -, -, -, -⟩ := rpc_snd_components fs _ st2 g false none hr
  dsimp only
  rw [if_pos (by simp)]
  refine ⟨by simpa using hso, by simpa using hto, rfl⟩

/-- C4 witness: a concrete group (PID 4) whose descriptor 0 is a live
socket but whose TCP/TCP6 tables read back 0 bytes: the group read
reports `(false, nil)` and no inode is recorded. -/
theorem claim_C4_empty_group_skipped_witness :
    (readProcessConnections fsE initSt [⟨4, "D"⟩]).1 = (false, none) ∧
    (walkNamespacePid fsE initSt [⟨4, "D"⟩] 3).1.sockets = initSt.sockets ∧
    (walkNamespacePid fsE initSt [⟨4, "D"⟩] 3).1.total = initSt.total ∧
    (walkNamespacePid fsE initSt [⟨4, "D"⟩] 3).2 = none :=
  claim_C4_empty_group_skipped fsE [⟨4, "D"⟩] initSt 3 (by decide)

/-- C1 counterexample: the rate-limit counter is only checked between
processes, so a single-process group walk never pauses.  With
`fdBlockSize = K = 1` and `M = 3` descriptors examined (`fsA`), the claim
demands at least `ceil(M/K) - 1 = 2` blocking receives on the tick
source, but the walk performs `0`. -/
theorem claim_C1_counterexample :
    (walkNamespacePid fsA initSt [⟨1, "A"⟩] 1).1.total = 3 ∧
    (walkNamespacePid fsA initSt [⟨1, "A"⟩] 1).1.pauses = 0 ∧
    ¬ ((3 + 1 - 1) / 1 - 1 ≤
        (walkNamespacePid fsA initSt [⟨1, "A"⟩] 1).1.pauses) := by decide

/-- C1 (amended): pauses happen only at process boundaries, so the bound
involves the largest single process: if every process of the group lists
at most `F` descriptors, then a group walk that examines `M` descriptors
in total blocks on the tick source at least `ceil (M / (K + F)) - 1`
times (equivalently `M ≤ (pauses + 1) * (K + F)`); in particular a
single-process group may examine `M > K` descriptors with no pause at
all. -/
theorem claim_C1_amended (fs : Fs) (K F : Nat) (g : List Process)
    (hF : ∀ p ∈ g, fdCount fs p ≤ F) :
    (walkNamespacePid fs initSt g K).1.total ≤
      ((walkNamespacePid fs initSt g K).1.pauses + 1) * (K + F) ∧
    ((walkNamespacePid fs initSt g K).1.total + (K + F) - 1) / (K + F) ≤
      (walkNamespacePid fs initSt g K).1.pauses + 1 := by
  have h := walkNamespacePid_rate fs K F g initSt hF
  rw [show initSt.pauses = 0 from rfl, show initSt.total = 0 from rfl,
    Nat.zero_mul, Nat.add_zero, Nat.zero_add] at h
  refine ⟨h, ?_⟩
  rcases Nat.eq_zero_or_pos (K + F) with hW | hW
  · rw [hW]
    simp
  · rw [Nat.div_le_iff_le_mul_add_pred hW, Nat.mul_comm (K + F)]
    generalize hX : ((walkNamespacePid fs initSt g K).1.pauses + 1) * (K + F)
      = X at h ⊢
    omega

/-- C1 amended witness: the `fsA` group (one process, three descriptors,
`K = 1`, per-process bound `F = 3`) satisfies the amended bound. -/
theorem claim_C1_amended_witness :
    (walkNamespacePid fsA initSt [⟨1, "A"⟩] 1).1.total ≤
      ((walkNamespacePid fsA initSt [⟨1, "A"⟩] 1).1.pauses + 1) * (1 + 3) ∧
    ((walkNamespacePid fsA initSt [⟨1, "A"⟩] 1).1.total + (1 + 3) - 1) /
        (1 + 3) ≤
      (walkNamespacePid fsA initSt [⟨1, "A"⟩] 1).1.pauses + 1 :=
  claim_C1_amended fsA 1 3 [⟨1, "A"⟩] (by decide)

/-- C2 counterexample: the shared buffer is never cleared between
namespace groups.  In `fsB` (two groups, the first appending 3 bytes),
the second group's connection-table read starts with the buffer still
holding the 3 bytes of the first group's read, refuting the claim that
each group-read starts with an empty buffer. -/
theorem claim_C2_counterexample :
    (scan fsB [⟨1, "A"⟩, ⟨2, "B"⟩] 9 "").1.groupReadStartLens = [0, 3] ∧
    ¬ (∀ l ∈ (scan fsB [⟨1, "A"⟩, ⟨2, "B"⟩] 9 "").1.groupReadStartLens,
        l = 0) := by decide

/-- C2 (amended): the shared buffer is never cleared during a scan: the
buffer lengths observed at the start of each group's connection-table
read form a non-decreasing chain ending below the final buffer length —
every group's read begins with all bytes appended by earlier groups
still in the buffer. -/
theorem claim_C2_amended (fs : Fs) (procs : List Process)
    (fdBlockSize : Nat) (cache : String) :
    List.Chain' (· ≤ ·)
      ((scan fs procs fdBlockSize cache).1.groupReadStartLens ++
        [(scan fs procs fdBlockSize cache).1.bufLen]) := by
  simp only [scan, walkProcPid]
  apply wppLoop_chain
  simp [initSt]

/-- C3 counterexample: a rate-limit pause re-reads the group's
connection table, so a scan can perform more table reads than it has
namespace groups.  In `fsC` (one group of two processes, `K = 1`), the
scan performs 2 reads for 1 group. -/
theorem claim_C3_counterexample :
    (scan fsC [⟨1, "A"⟩, ⟨2, "B"⟩] 1 "").1.reads = 2 ∧
    (groupByNamespace fsC
        (getNetNamespacePathSuffix "" fsC.kernelVersion).1
        [⟨1, "A"⟩, ⟨2, "B"⟩]).length = 1 ∧
    ¬ ((scan fsC [⟨1, "A"⟩, ⟨2, "B"⟩] 1 "").1.reads ≤
        (groupByNamespace fsC
          (getNetNamespacePathSuffix "" fsC.kernelVersion).1
          [⟨1, "A"⟩, ⟨2, "B"⟩]).length) := by decide

/-- C3 (amended): the number of connection-table read operations of a
scan equals the number of namespace groups plus the number of rate-limit
pauses; in particular, reads per group stay at one only in the absence
of pauses, independent of how many processes share each namespace. -/
theorem claim_C3_amended (fs : Fs) (procs : List Process)
    (fdBlockSize : Nat) (cache : String) :
    (scan fs procs fdBlockSize cache).1.reads =
      (groupByNamespace fs
        (getNetNamespacePathSuffix cache fs.kernelVersion).1 procs).length +
      (scan fs procs fdBlockSize cache).1.pauses := by
  simp only [scan, walkProcPid]
  have h := wppLoop_reads_pauses fs fdBlockSize
    (groupByNamespace fs
      (getNetNamespacePathSuffix cache fs.kernelVersion).1 procs) initSt
  rw [show initSt.pauses = 0 from rfl, show initSt.reads = 0 from rfl] at h
  omega

/-- C5: when the rate limit has tripped (`fdBlockCount > fdBlockSize`)
and the post-pause connection-table re-read fails or reports an empty
table, the walk of the remaining processes stops with exactly the
already-accumulated result map; accumulated keys are never dropped by
later groups, and the group loop moves on to the remaining groups
regardless of the per-group outcome. -/
theorem claim_C5_soft_stop (fs : Fs) (fdBlockSize fdBlockCount : Nat)
    (p : Process) (rest : List Process) (st : ScanSt) (found : Bool)
    (err : Option String) (st2 : ScanSt) (gs : List (Nat × List Process))
    (st' : ScanSt) (ino : Nat) (g2 : List Process)
    (rest2 : List (Nat × List Process)) (st3 : ScanSt)
    (hc : fdBlockCount > fdBlockSize)
    (hr : readProcessConnections fs (tick st) (p :: rest) =
      ((found, err), st2))
    (hbad : (err.isSome || !found) = true) :
    wnpLoop fs fdBlockSize (p :: rest) st fdBlockCount = (st2, err) ∧
    st2.sockets = st.sockets ∧
    List.Sublist (keys st'.sockets)
      (keys (wppLoop fs fdBlockSize gs st').sockets) ∧
    wppLoop fs fdBlockSize ((ino, g2) :: rest2) st3 =
      wppLoop fs fdBlockSize rest2 (walkNamespacePid fs st3 g2 fdBlockSize).1 := by
  refine ⟨?_, ?_, wppLoop_keys_sublist fs fdBlockSize gs st', rfl⟩
  · simp only [wnpLoop]
    rw [if_pos hc, hr]
    dsimp only
    rw [if_pos hbad]
  · have := (rpc_snd_components fs (tick st) st2 (p :: rest) found err hr).1
    simpa [tick] using this

/-- C5 witness: a group whose re-read fails (`fsD`, every read erring)
with one entry already accumulated: the walk stops, returns the re-read
error, and the accumulated entry (inode 77) is retained. -/
theorem claim_C5_soft_stop_witness :
    wnpLoop fsD 1 [⟨9, "G"⟩] stD 5 = (st2D, some "gone") ∧
    st2D.sockets = stD.sockets ∧
    List.Sublist (keys stD.sockets) (keys (wppLoop fsD 1 [] stD).sockets) ∧
    wppLoop fsD 1 [(555, [⟨9, "G"⟩])] stD =
      wppLoop fsD 1 [] (walkNamespacePid fsD stD [⟨9, "G"⟩] 1).1 :=
  claim_C5_soft_stop fsD 1 5 ⟨9, "G"⟩ [] stD false (some "gone") st2D []
    stD 555 [⟨9, "G"⟩] [] stD (by decide) (by decide) (by decide)

/-- C6: every key of a scan's result map was observed through a live
descriptor whose stat file-type bits equal `S_IFSOCK`, belonging to a
process of a namespace group whose connection-table read reported
non-empty; descriptors of any other file type never contribute keys. -/
theorem claim_C6_keys_provenance (fs : Fs) (procs : List Process)
    (fdBlockSize : Nat) (cache : String) (k : Nat)
    (hk : k ∈ keys (scan fs procs fdBlockSize cache).1.sockets) :
    ∃ g ∈ groupByNamespace fs
        (getNetNamespacePathSuffix cache fs.kernelVersion).1 procs,
      (readProcessConnections fs initSt g.2).1.1 = true ∧
      ∃ p ∈ g.2, socketSeen fs p k := by
  simp only [scan, walkProcPid] at hk
  rcases wppLoop_keys_src fs fdBlockSize _ initSt k hk with h | h
  · simp [initSt, keys] at h
  · exact h

/-- C6 witness: inode 9000 of the `fsA` scan result is traced back to a
socket-typed descriptor of PID 1 in a group with a non-empty read. -/
theorem claim_C6_keys_provenance_witness :
    ∃ g ∈ groupByNamespace fsA
        (getNetNamespacePathSuffix "" fsA.kernelVersion).1 [⟨1, "A"⟩],
      (readProcessConnections fsA initSt g.2).1.1 = true ∧
      ∃ p ∈ g.2, socketSeen fsA p 9000 :=
  claim_C6_keys_provenance fsA [⟨1, "A"⟩] 1 "" 9000 (by decide)

lemma rpcLoop_step_fail (fs : Fs) (p : Process) (rest : List Process)
    (st : ScanSt) (e1 e2 : Option String)
    (hfail : (fs.readFileLen (tcpPath p)).isOk = false ∨
             (fs.readFileLen (tcp6Path p)).isOk = false) :
    (rpcLoop fs st (p :: rest) e1 e2).1 =
      (rpcLoop fs initSt rest (exErr (fs.readFileLen (tcpPath p)))
        (exErr (fs.readFileLen (tcp6Path p)))).1 := by
  rw [rpcLoop]
  rcases h1 : fs.readFileLen (tcpPath p) with e | n <;>
    rcases h2 : fs.readFileLen (tcp6Path p) with e' | n'
  · simp only [readFile, h1, h2, exErr]
    rw [if_pos (by simp)]
    apply rpcLoop_fst
  · simp only [readFile, h1, h2, exErr]
    rw [if_pos (by simp)]
    apply rpcLoop_fst
  · simp only [readFile, h1, h2, exErr]
    rw [if_pos (by simp)]
    apply rpcLoop_fst
  · rw [h1, h2] at hfail
    simp [Except.isOk, Except.toBool] at hfail

lemma rpc_all_fail (fs : Fs) (g : List Process) :
    ∀ (e1 e2 : Option String), g ≠ [] →
      (∀ p ∈ g, (fs.readFileLen (tcpPath p)).isOk = false ∨
                (fs.readFileLen (tcp6Path p)).isOk = false) →
      ∃ e q, g.getLast? = some q ∧
        (rpcLoop fs initSt g e1 e2).1 = (false, some e) ∧
        (fs.readFileLen (tcpPath q) = .error e ∨
         fs.readFileLen (tcp6Path q) = .error e) := by
  induction g with
  | nil => intro e1 e2 hne _; exact absurd rfl hne
  | cons p rest ih =>
    intro e1 e2 _ h
    have hp := h p (List.mem_cons_self _ _)
    rw [rpcLoop_step_fail fs p rest initSt e1 e2 hp]
    cases rest with
    | nil =>
      rcases h1 : fs.readFileLen (tcpPath p) with e | n
      · exact ⟨e, p, rfl, by simp [rpcLoop, exErr, h1], Or.inl h1⟩
      · rcases h2 : fs.readFileLen (tcp6Path p) with e' | n'
        · exact ⟨e', p, rfl, by simp [rpcLoop, exErr, h1, h2], Or.inr h2⟩
        · rw [h1, h2] at hp
          simp [Except.isOk, Except.toBool] at hp
    | cons q rest2 =>
      obtain ⟨e0, q0, hlast, hres, hdisj⟩ :=
        ih (exErr (fs.readFileLen (tcpPath p)))
          (exErr (fs.readFileLen (tcp6Path p))) (by simp)
          (fun r hr => h r (List.mem_cons_of_mem _ hr))
      exact ⟨e0, q0, by simpa using hlast, hres, hdisj⟩

/-- C7: when every member of a (non-empty) namespace group fails at
least one of its two connection-table reads, `readProcessConnections`
returns `nonEmpty = false` together with an error of the last attempted
member — not `nil`. -/
theorem claim_C7_all_members_fail (fs : Fs) (st : ScanSt)
    (g : List Process) (hne : g ≠ [])
    (h : ∀ p ∈ g, (fs.readFileLen (tcpPath p)).isOk = false ∨
                  (fs.readFileLen (tcp6Path p)).isOk = false) :
    ∃ e q, g.getLast? = some q ∧
      (readProcessConnections fs st g).1 = (false, some e) ∧
      (fs.readFileLen (tcpPath q) = .error e ∨
       fs.readFileLen (tcp6Path q) = .error e) := by
  obtain ⟨e, q, hlast, hres, hdisj⟩ := rpc_all_fail fs g none none hne h
  refine ⟨e, q, hlast, ?_, hdisj⟩
  rw [readProcessConnections,
    rpcLoop_fst fs g { st with reads := st.reads + 1 } initSt none none]
  exact hres

/-- C7 witness: in `fsF`, PID 5 fails its TCP read and PID 6 its TCP6
read; the group read reports `(false, some e)` with `e` an error of the
last member (PID 6). -/
theorem claim_C7_all_members_fail_witness :
    ∃ e q, [(⟨5, "E"⟩ : Process), ⟨6, "F"⟩].getLast? = some q ∧
      (readProcessConnections fsF initSt [⟨5, "E"⟩, ⟨6, "F"⟩]).1 =
        (false, some e) ∧
      (fsF.readFileLen (tcpPath q) = .error e ∨
       fsF.readFileLen (tcp6Path q) = .error e) :=
  claim_C7_all_members_fail fsF initSt [⟨5, "E"⟩, ⟨6, "F"⟩]
    (by decide) (by decide)

end Procspy
